import Mathlib

/-!
Shallow embedding of the spatial core of the `island_past_infinity` game:
the layered tile grid (`Level`), the auto-tile resolver
(`TileAutoRule.cmp`, `find_best_tile_for_index`, `set_surrounding_tiles`,
`place_tile`), the sub-tile collision probe (`check_for_collision`) and the
axis-separated mover (`body_move`).  Rust `f32` coordinates are modelled as
exact rationals; `Vec` indexing that panics out of bounds is modelled with
`Option`-returning lookups, and in-place mutation as explicit state passing.
-/

/-- `TILE_SIZE` constant from `main.rs` (16.0). -/
def TILE_SIZE : ℚ := 16

/-- `TILE_COLLISION_SECTIONS` constant from `main.rs` (3.0). -/
def TILE_COLLISION_SECTIONS : ℚ := 3

/-- `TileLayer` enum from `tilesets.rs`. -/
inductive TileLayer where
  | Background
  | Object
  | Overlay
deriving DecidableEq, Repr

/-- `TilePointer(String, usize)` from `levels.rs`. -/
structure TilePointer where
  tileset : String
  idx : Nat
deriving DecidableEq, Repr

/-- `TileAutoRule` from `tilesets.rs`: eight tri-state neighbor slots. -/
structure TileAutoRule where
  top_left : Option Bool
  top : Option Bool
  top_right : Option Bool
  right : Option Bool
  bottom_right : Option Bool
  bottom : Option Bool
  bottom_left : Option Bool
  left : Option Bool
deriving DecidableEq, Repr

/-- `CollisionMatrix` from `tilesets.rs`: 3x3 boolean sub-grid. -/
structure CollisionMatrix where
  matrix : List (List Bool)
deriving DecidableEq, Repr

/-- `CollisionMatrix::new`: all-solid 3x3 matrix. -/
def CollisionMatrix.new : CollisionMatrix :=
  ⟨[[true, true, true], [true, true, true], [true, true, true]]⟩

/-- `TileAsset` from `tilesets.rs`. -/
structure TileAsset where
  x : ℚ
  y : ℚ
  auto_rule : Option TileAutoRule
  layer : TileLayer
  group : Option Nat
  collision_matrix : Option CollisionMatrix
deriving DecidableEq, Repr

/-- `TileVec` alias from `levels.rs`. -/
abbrev TileVec := List (List (Option TilePointer))

/-- `Level` from `levels.rs` (the `path` string and textures are I/O-only
and omitted; a tileset is its list of tile definitions). -/
structure Level where
  rows : Nat
  cols : Nat
  background : TileVec
  object : TileVec
  overlay : TileVec
  tilesets : List (String × List TileAsset)

/-- The editor-state fields of `LevelEditorSettings` that `place_tile`
reads. -/
structure LevelEditorSettings where
  selected_tileset : Option String
  selected_tile : Option Nat
  show_background : Bool
  show_object : Bool
  show_overlay : Bool

/-- `TileHitInfo` from `levels.rs`: fractional row/col of the hit sub-cell. -/
structure TileHitInfo where
  row : ℚ
  col : ℚ
deriving DecidableEq, Repr

/-- `TileHitInfo::SMALL` (1e-4). -/
def TileHitInfo.SMALL : ℚ := 1 / 10000

/-- `TileHitInfo::from_left`. -/
def TileHitInfo.from_left (h : TileHitInfo) : ℚ :=
  h.col * TILE_SIZE - TileHitInfo.SMALL

/-- `TileHitInfo::from_right`. -/
def TileHitInfo.from_right (h : TileHitInfo) : ℚ :=
  h.col * TILE_SIZE + TILE_SIZE / TILE_COLLISION_SECTIONS

/-- `TileHitInfo::from_top`. -/
def TileHitInfo.from_top (h : TileHitInfo) : ℚ :=
  h.row * TILE_SIZE - TileHitInfo.SMALL

/-- `TileHitInfo::from_bottom`. -/
def TileHitInfo.from_bottom (h : TileHitInfo) : ℚ :=
  h.row * TILE_SIZE + TILE_SIZE / TILE_COLLISION_SECTIONS

/-- Two-level `Vec` read `grid[r][c]`; `none` when either index is out of
bounds (the Rust code panics there). -/
def cell2 (g : TileVec) (r c : Nat) : Option (Option TilePointer) :=
  (List.get? g r).bind fun row => List.get? row c

/-- Two-level `Vec` write `grid[r][c] = v` (no-op out of bounds; the Rust
code panics there). -/
def setCell (g : TileVec) (r c : Nat) (v : Option TilePointer) : TileVec :=
  List.set g r (List.set (List.getD g r []) c v)

/-- `Level::get_layer`. -/
def Level.get_layer (level : Level) (layer : TileLayer) : TileVec :=
  match layer with
  | TileLayer.Background => level.background
  | TileLayer.Object => level.object
  | TileLayer.Overlay => level.overlay

/-- The `get_tile_mut!` macro followed by assignment: write one cell of the
named layer. -/
def setLayerCell (level : Level) (layer : TileLayer) (r c : Nat)
    (v : Option TilePointer) : Level :=
  match layer with
  | TileLayer.Background => { level with background := setCell level.background r c v }
  | TileLayer.Object => { level with object := setCell level.object r c v }
  | TileLayer.Overlay => { level with overlay := setCell level.overlay r c v }

/-- `self.tilesets[id]` HashMap lookup (as an association-list lookup). -/
def lookupTileset (level : Level) (id : String) : Option (List TileAsset) :=
  (List.find? (fun p => p.1 = id) level.tilesets).map (fun p => p.2)

/-- `Level::get_tile`: resolve a `TilePointer` (`none` models the panic on a
dangling reference). -/
def getTile (level : Level) (ptr : TilePointer) : Option TileAsset :=
  (lookupTileset level ptr.tileset).bind fun tiles => List.get? tiles ptr.idx

/-- `TileAutoRule::from_array`. -/
def TileAutoRule.from_array (a : Fin 8 → Bool) : TileAutoRule :=
  { top_left := some (a 0), top := some (a 1), top_right := some (a 2),
    right := some (a 3), bottom_right := some (a 4), bottom := some (a 5),
    bottom_left := some (a 6), left := some (a 7) }

/-- The eight slots of a rule in the fixed order used by
`TileAutoRule::cmp`. -/
def TileAutoRule.slots (r : TileAutoRule) : List (Option Bool) :=
  [r.top_left, r.top, r.top_right, r.right,
   r.bottom_right, r.bottom, r.bottom_left, r.left]

/-- Loop body of `TileAutoRule::cmp`: accumulate points, early-return
`none` on a concrete mismatch. -/
def cmpGo : List (Option Bool × Option Bool) → Nat → Option Nat
  | [], pts => some pts
  | (some a, some b) :: rest, pts =>
      if a = b then cmpGo rest (pts + 1) else none
  | (_, _) :: rest, pts => cmpGo rest pts

/-- `TileAutoRule::cmp`. -/
def TileAutoRule.cmp (self other : TileAutoRule) : Option Nat :=
  cmpGo (List.zip self.slots other.slots) 0

/-- The eight fixed compass offsets used by `get_auto_tile_for_index` and
`set_surrounding_tiles`, in source order NW,N,NE,E,SE,S,SW,W. -/
def ringOffsets : List (ℤ × ℤ) :=
  [(-1, -1), (-1, 0), (-1, 1), (0, 1), (1, 1), (1, 0), (1, -1), (0, -1)]

/-- One neighbor test of `get_auto_tile_for_index`: the cell at signed
`(r, c)` holds a tile of the given group (negative or out-of-range indices
count as absent). -/
def neighborPresent (level : Level) (g : TileVec) (r c : ℤ)
    (group : Option Nat) : Bool :=
  if 0 ≤ r ∧ 0 ≤ c then
    match cell2 g r.toNat c.toNat with
    | some (some ptr) =>
        match getTile level ptr with
        | some t => decide (t.group = group)
        | none => false
    | _ => false
  else false

/-- `Level::get_auto_tile_for_index`: the 8-neighbor presence signature. -/
def get_auto_tile_for_index (level : Level) (row col : Nat)
    (layer : TileLayer) (group : Option Nat) : TileAutoRule :=
  let g := level.get_layer layer
  TileAutoRule.from_array fun i =>
    let off := List.getD ringOffsets i.val (0, 0)
    neighborPresent level g ((row : ℤ) + off.1) ((col : ℤ) + off.2) group

/-- Loop body of `find_best_tile_for_index`: scan the enumerated tile list
keeping the last candidate whose score is `>=` the running maximum. -/
def bestFoldGo (tsid : String) (sig : TileAutoRule) (grp : Option Nat) :
    List (Nat × TileAsset) → Nat × Option TilePointer → Nat × Option TilePointer
  | [], acc => acc
  | (idx, possible) :: rest, acc =>
      bestFoldGo tsid sig grp rest
        (if possible.group = grp then
          match possible.auto_rule with
          | some pr =>
              match pr.cmp sig with
              | some pts => if acc.1 ≤ pts then (pts, some ⟨tsid, idx⟩) else acc
              | none => acc
          | none => acc
        else acc)

/-- `Level::find_best_tile_for_index`. -/
def find_best_tile_for_index (level : Level) (row col : Nat)
    (tile : TileAsset) (tileset_id : String) : Option TilePointer :=
  let auto_rule := get_auto_tile_for_index level row col tile.layer tile.group
  let tiles := Option.getD (lookupTileset level tileset_id) []
  (bestFoldGo tileset_id auto_rule tile.group (List.enum tiles) (0, none)).2

/-- One iteration of the `set_surrounding_tiles` loop: if the signed
position is inside the stored extent and holds a tile, re-resolve it and
replace the stored pointer when resolution yields a tile. -/
def updateNeighbor (layer_id : TileLayer) (level : Level) (pos : ℤ × ℤ) : Level :=
  if 0 ≤ pos.1 ∧ pos.1 < (level.rows : ℤ) ∧ 0 ≤ pos.2 ∧ pos.2 < (level.cols : ℤ) then
    let r := pos.1.toNat
    let c := pos.2.toNat
    match cell2 (level.get_layer layer_id) r c with
    | some (some tile_ptr) =>
        match getTile level tile_ptr with
        | some tile =>
            match find_best_tile_for_index level r c tile tile_ptr.tileset with
            | some p => setLayerCell level layer_id r c (some p)
            | none => level
        | none => level
    | _ => level
  else level

/-- The eight signed neighbor positions of (row, col), in the fixed loop
order of `set_surrounding_tiles`. -/
def ringPositions (row col : Nat) : List (ℤ × ℤ) :=
  ringOffsets.map fun off => ((row : ℤ) + off.1, (col : ℤ) + off.2)

/-- `Level::set_surrounding_tiles`. -/
def set_surrounding_tiles (level : Level) (row col : Nat)
    (layer_id : TileLayer) : Level :=
  (ringPositions row col).foldl (updateNeighbor layer_id) level

/-- The value one loop iteration of `set_surrounding_tiles` leaves in the
cell it visits: if the cell holds a resolvable tile, scoring is re-run for
that position on the stored tile and the pointer is replaced when
resolution yields a tile; otherwise the cell keeps its value. -/
def resolveCell (lid : TileLayer) (L : Level) (pos : ℤ × ℤ) :
    Option (Option TilePointer) :=
  match cell2 (L.get_layer lid) pos.1.toNat pos.2.toNat with
  | some (some tp) =>
      match getTile L tp with
      | some tile =>
          match find_best_tile_for_index L pos.1.toNat pos.2.toNat tile tp.tileset with
          | some p => some (some p)
          | none => some (some tp)
      | none => some (some tp)
  | other => other

/-- `Level::place_tile`. -/
def place_tile (level : Level) (row col : Nat)
    (editor : LevelEditorSettings) (auto_tile : Bool) : Level :=
  match editor.selected_tileset, editor.selected_tile with
  | some tileset_id, some tile_id =>
      match (lookupTileset level tileset_id).bind (fun ts => List.get? ts tile_id) with
      | some tile =>
          if auto_tile then
            let layer := tile.layer
            let tile_ptr :=
              match find_best_tile_for_index level row col tile tileset_id with
              | some p => some p
              | none => some ⟨tileset_id, tile_id⟩
            let level1 := setLayerCell level layer row col tile_ptr
            set_surrounding_tiles level1 row col layer
          else
            setLayerCell level tile.layer row col (some ⟨tileset_id, tile_id⟩)
      | none => level
  | _, _ =>
      let level1 :=
        if editor.show_background then
          let l := setLayerCell level TileLayer.Background row col none
          if auto_tile then set_surrounding_tiles l row col TileLayer.Background else l
        else level
      let level2 :=
        if editor.show_object then
          let l := setLayerCell level1 TileLayer.Object row col none
          if auto_tile then set_surrounding_tiles l row col TileLayer.Object else l
        else level1
      if editor.show_overlay then
        let l := setLayerCell level2 TileLayer.Overlay row col none
        if auto_tile then set_surrounding_tiles l row col TileLayer.Overlay else l
      else level2

/-- The row index `row as usize` actually used by `check_for_collision`:
the floor, cast to `usize` (saturating at zero for negative values). -/
def rowIndex (y : ℚ) : Nat := (Int.floor (y / TILE_SIZE)).toNat

/-- The column index `col as usize` used by `check_for_collision`. -/
def colIndex (x : ℚ) : Nat := (Int.floor (x / TILE_SIZE)).toNat

/-- `matrix[r][c]` on a collision matrix (indices are always in range for
the 3x3 matrices the code builds). -/
def matrixGet (cm : CollisionMatrix) (r c : Nat) : Bool :=
  List.getD (List.getD cm.matrix r []) c false

/-- `Level::check_for_collision`. -/
def check_for_collision (level : Level) (x y : ℚ) : Option TileHitInfo :=
  let row : ℚ := (Int.floor (y / TILE_SIZE) : ℤ)
  let col : ℚ := (Int.floor (x / TILE_SIZE) : ℤ)
  match cell2 level.object (rowIndex y) (colIndex x) with
  | some (some tile_ptr) =>
      match getTile level tile_ptr with
      | some tile =>
          let portion_size := TILE_SIZE / TILE_COLLISION_SECTIONS
          let portion_row : ℤ := Int.floor ((y - row * TILE_SIZE) / portion_size)
          let portion_col : ℤ := Int.floor ((x - col * TILE_SIZE) / portion_size)
          match tile.collision_matrix with
          | some cm =>
              if matrixGet cm portion_row.toNat portion_col.toNat then
                some ⟨row + (portion_row : ℚ) * (1 / TILE_COLLISION_SECTIONS),
                      col + (portion_col : ℚ) * (1 / TILE_COLLISION_SECTIONS)⟩
              else none
          | none => none
      | none => none
  | _ => none

/-- The `macroquad::math::Rect` hitbox owned by a `Body`. -/
structure Rect where
  x : ℚ
  y : ℚ
  w : ℚ
  h : ℚ
deriving DecidableEq, Repr

/-- The sweep step `TILE_SIZE / TILE_COLLISION_SECTIONS` used by
`Body::move`. -/
def vertStep : ℚ := TILE_SIZE / TILE_COLLISION_SECTIONS

/-- Iteration bound for the embedded sweep loop: one more than the number
of steps needed to walk the extent (always sufficient; the Rust loop has no
bound because it provably reaches the far edge). -/
def sweepFuel (extent : ℚ) : Nat := (Int.ceil (extent / vertStep)).toNat + 2

/-- One per-axis sweep loop of `Body::move`: clamp the probe coordinate to
the far edge, probe, stop on the first hit or once the far edge itself has
been probed, otherwise advance by `step`.  `none` means the iteration bound
ran out (shown unreachable for the fuel used). -/
def sweepLoop (probe : ℚ → Option TileHitInfo) (far step : ℚ) :
    ℚ → Nat → Option (Option TileHitInfo)
  | _, 0 => none
  | start, Nat.succ n =>
      let v := if far < start then far else start
      match probe v with
      | some hit => some (some hit)
      | none => if v = far then some none else sweepLoop probe far step (v + step) n

/-- First hit of a probe along a list of probe coordinates. -/
def firstHit (probe : ℚ → Option TileHitInfo) : List ℚ → Option TileHitInfo
  | [] => none
  | p :: ps =>
      match probe p with
      | some hit => some hit
      | none => firstHit probe ps

/-- The probe coordinates a sweep starting at `start` over an edge of
length `extent` visits: steps of `vertStep`, clamped to the far edge. -/
def sweepPoints (start extent : ℚ) : List ℚ :=
  (List.range (sweepFuel extent)).map fun k : ℕ =>
    min (start + (k : ℚ) * vertStep) (start + extent)

/-- Horizontal phase of `Body::move`: apply `dx`, then sweep the leading
vertical edge (right edge when moving right, left edge otherwise) from the
box top to its bottom, clamping `x` at the first hit. -/
def body_move_x (level : Level) (box : Rect) (dx : ℚ) : Rect :=
  let x1 := box.x + dx
  let bottom := box.y + box.h
  let probe : ℚ → Option TileHitInfo := fun v =>
    if 0 < dx then check_for_collision level (x1 + box.w) v
    else check_for_collision level x1 v
  match sweepLoop probe bottom vertStep box.y (sweepFuel box.h) with
  | some (some hit) =>
      { box with x := if 0 < dx then hit.from_left - box.w else hit.from_right }
  | _ => { box with x := x1 }

/-- Vertical phase of `Body::move`: apply `dy`, then sweep the leading
horizontal edge (bottom edge when moving down, top edge otherwise) from the
box left to its right, clamping `y` at the first hit. -/
def body_move_y (level : Level) (box : Rect) (dy : ℚ) : Rect :=
  let y1 := box.y + dy
  let right := box.x + box.w
  let probe : ℚ → Option TileHitInfo := fun hcp =>
    if 0 < dy then check_for_collision level hcp (y1 + box.h)
    else check_for_collision level hcp y1
  match sweepLoop probe right vertStep box.x (sweepFuel box.w) with
  | some (some hit) =>
      { box with y := if 0 < dy then hit.from_top - box.h else hit.from_bottom }
  | _ => { box with y := y1 }

/-- `Body::move` (minus the animator, which only drives rendering):
scale the intent by `dt`, move and resolve x, then move and resolve y. -/
def body_move (level : Level) (box : Rect) (delta : ℚ × ℚ) (dt : ℚ) : Rect :=
  body_move_y level (body_move_x level box (delta.1 * dt)) (delta.2 * dt)

/-- `Vec::resize_with` with a constant default: truncate or pad on the
right. -/
def resize_with (l : List α) (n : Nat) (d : α) : List α :=
  l.take n ++ List.replicate (n - l.length) d

/-- The per-layer resize performed by the editor `Resize` action: resize
every existing row to `cols` cells, then resize the row list to `rows`
fresh empty rows. -/
def resizeGrid (g : TileVec) (rows cols : Nat) : TileVec :=
  resize_with (g.map fun r => resize_with r cols none) rows
    (List.replicate cols none)

/-- The `Resize` action of `Level::editor_panel` (after a successful
prompt parse): store the new extent and resize all three layers. -/
def level_resize (level : Level) (rows cols : Nat) : Level :=
  { level with
    rows := rows, cols := cols,
    background := resizeGrid level.background rows cols,
    object := resizeGrid level.object rows cols,
    overlay := resizeGrid level.overlay rows cols }

/-- Qualification of one enumerated candidate, as the spec states it: it
must share the subject's group, declare a rule, and have no concrete-slot
mismatch; its score is then `cmp`'s point count. -/
def qualifyEnum (sig : TileAutoRule) (grp : Option Nat)
    (p : Nat × TileAsset) : Option (Nat × Nat) :=
  if p.2.group = grp then
    p.2.auto_rule.bind fun r => (r.cmp sig).map fun pts => (p.1, pts)
  else none

/-- The enumerated (index, score) list of non-disqualified candidates. -/
def qualifiedScores (tiles : List TileAsset) (grp : Option Nat)
    (sig : TileAutoRule) : List (Nat × Nat) :=
  (List.enum tiles).filterMap (qualifyEnum sig grp)

/-- Maximum score of a candidate list (0 when empty). -/
def maxScore (l : List (Nat × Nat)) : Nat :=
  l.foldl (fun m p => max m p.2) 0

/-- Selection as the spec words it: among non-disqualified scored
candidates take the maximum score and, on ties, the last-enumerated
candidate with that score. -/
def selectLastMax (l : List (Nat × Nat)) : Option Nat :=
  ((l.filter fun p => p.2 = maxScore l).getLast?).map fun p => p.1

/-- The editor visibility flag governing one layer. -/
def showFlag (editor : LevelEditorSettings) (layer : TileLayer) : Bool :=
  match layer with
  | TileLayer.Background => editor.show_background
  | TileLayer.Object => editor.show_object
  | TileLayer.Overlay => editor.show_overlay

/-- A fully solid object tile (no auto rule, no group, all-solid matrix). -/
def solidTile : TileAsset :=
  ⟨0, 0, none, TileLayer.Object, none, some CollisionMatrix.new⟩

/-- A 1x1 level whose only cell holds `solidTile` on the object layer. -/
def demoLevel : Level :=
  { rows := 1, cols := 1,
    background := [[none]],
    object := [[some ⟨"t", 0⟩]],
    overlay := [[none]],
    tilesets := [("t", [solidTile])] }

/-- Editor state: nothing selected, object layer hidden. -/
def editorNoObj : LevelEditorSettings := ⟨none, none, true, false, true⟩

/-- Editor state: nothing selected, all layers shown. -/
def editorAll : LevelEditorSettings := ⟨none, none, true, true, true⟩

/-- Editor state: tile 0 of tileset "t" selected. -/
def editorSel : LevelEditorSettings := ⟨some "t", some 0, true, true, true⟩

/-- A 16x16 box whose left edge (x = 8) overlaps the solid cell of
`demoLevel`. -/
def demoBox : Rect := ⟨8, 0, 16, 16⟩

/-- A 1x2 level holding `solidTile` in both object-layer cells, so the
cell (0,1) is an in-bounds neighbor of (0,0). -/
def demoLevel2 : Level :=
  { rows := 1, cols := 2,
    background := [[none, none]],
    object := [[some ⟨"t", 0⟩, some ⟨"t", 0⟩]],
    overlay := [[none, none]],
    tilesets := [("t", [solidTile])] }

/-- A 1x1 level with nothing placed anywhere. -/
def emptyLevel : Level :=
  { rows := 1, cols := 1,
    background := [[none]], object := [[none]], overlay := [[none]],
    tilesets := [] }

/-- The slot of a rule at one of the 8 compass positions. -/
def slotAt (r : TileAutoRule) (i : Fin 8) : Option Bool :=
  List.getD r.slots i.val none

/-- The accumulator scan of `find_best_tile_for_index` restricted to the
qualified (index, score) pairs. -/
def scoreFold : List (Nat × Nat) → Nat × Option Nat → Nat × Option Nat
  | [], acc => acc
  | p :: rest, acc =>
      scoreFold rest (if acc.1 ≤ p.2 then (p.2, some p.1) else acc)

/-- Running maximum of the scores, starting from `m`. -/
def maxFrom (m : Nat) (l : List (Nat × Nat)) : Nat :=
  l.foldl (fun acc p => max acc p.2) m


/-- Evaluate the floor of a rational from two-sided bounds. -/
theorem floorQ (q : ℚ) (z : ℤ) (h1 : (z : ℚ) ≤ q) (h2 : q < z + 1) : Int.floor q = z :=
  Int.floor_eq_iff.mpr ⟨h1, h2⟩

/-- Evaluate the ceiling of a rational from two-sided bounds. -/
theorem ceilQ (q : ℚ) (z : ℤ) (h1 : (z : ℚ) - 1 < q) (h2 : q ≤ z) : Int.ceil q = z :=
  Int.ceil_eq_iff.mpr ⟨h1, h2⟩


theorem cmpGo_eq_none_iff (l : List (Option Bool × Option Bool)) (n : Nat) :
    cmpGo l n = none ↔ ∃ p ∈ l, ∃ x y, p.1 = some x ∧ p.2 = some y ∧ x ≠ y := by
  induction l generalizing n with
  | nil => simp [cmpGo]
  | cons p rest ih =>
    obtain ⟨a, b⟩ := p
    match a, b with
    | none, none => simp [cmpGo, ih]
    | none, some b => simp [cmpGo, ih]
    | some a, none => simp [cmpGo, ih]
    | some a, some b =>
      by_cases hab : a = b
      · subst hab
        simp [cmpGo, ih]
      · simp [cmpGo, hab]
        left
        cases a <;> cases b <;> simp_all

theorem cmpGo_eq_some (l : List (Option Bool × Option Bool)) (n : Nat)
    (h : ∀ p ∈ l, ∀ x y, p.1 = some x → p.2 = some y → x = y) :
    cmpGo l n = some (n + l.countP fun p => p.1.isSome && p.2.isSome) := by
  induction l generalizing n with
  | nil => simp [cmpGo]
  | cons p rest ih =>
    obtain ⟨a, b⟩ := p
    match a, b with
    | none, none => simpa [cmpGo, List.countP_cons] using ih n (fun p hp => h p (List.mem_cons_of_mem _ hp))
    | none, some b => simpa [cmpGo, List.countP_cons] using ih n (fun p hp => h p (List.mem_cons_of_mem _ hp))
    | some a, none => simpa [cmpGo, List.countP_cons] using ih n (fun p hp => h p (List.mem_cons_of_mem _ hp))
    | some a, some b =>
      have hab : a = b := h _ (List.mem_cons_self _ _) a b rfl rfl
      subst hab
      have := ih (n + 1) (fun p hp => h p (List.mem_cons_of_mem _ hp))
      simp [cmpGo, List.countP_cons, this]
      omega

theorem ind_eq (s : Option Bool) (v : Bool) (hs : ∀ b, s = some b → b = v) :
    s.isSome = decide (s = some v) := by
  cases s with
  | none => simp
  | some b => have := hs b rfl; subst this; simp

theorem cmp_none_iff_concrete_mismatch (r : TileAutoRule) (a : Fin 8 → Bool) :
    (TileAutoRule.cmp r (TileAutoRule.from_array a) = none ↔
      ∃ i : Fin 8, ∃ b, slotAt r i = some b ∧ b ≠ a i) := by
  obtain ⟨s0, s1, s2, s3, s4, s5, s6, s7⟩ := r
  rw [show TileAutoRule.cmp ⟨s0, s1, s2, s3, s4, s5, s6, s7⟩ (TileAutoRule.from_array a)
      = cmpGo [(s0, some (a 0)), (s1, some (a 1)), (s2, some (a 2)), (s3, some (a 3)),
               (s4, some (a 4)), (s5, some (a 5)), (s6, some (a 6)), (s7, some (a 7))] 0
      from rfl]
  rw [cmpGo_eq_none_iff]
  constructor
  · intro h
    simp only [List.mem_cons, List.not_mem_nil, or_false] at h
    obtain ⟨p, hp, x, y, hx, hy, hne⟩ := h
    rcases hp with h | h | h | h | h | h | h | h <;> subst h <;>
      simp only [Prod.fst, Prod.snd] at hx hy <;> injection hy with hy <;> subst hy
    · exact ⟨0, x, by simpa [slotAt, TileAutoRule.slots] using hx, hne⟩
    · exact ⟨1, x, by simpa [slotAt, TileAutoRule.slots] using hx, hne⟩
    · exact ⟨2, x, by simpa [slotAt, TileAutoRule.slots] using hx, hne⟩
    · exact ⟨3, x, by simpa [slotAt, TileAutoRule.slots] using hx, hne⟩
    · exact ⟨4, x, by simpa [slotAt, TileAutoRule.slots] using hx, hne⟩
    · exact ⟨5, x, by simpa [slotAt, TileAutoRule.slots] using hx, hne⟩
    · exact ⟨6, x, by simpa [slotAt, TileAutoRule.slots] using hx, hne⟩
    · exact ⟨7, x, by simpa [slotAt, TileAutoRule.slots] using hx, hne⟩
  · intro h
    obtain ⟨i, b, hb, hne⟩ := h
    fin_cases i <;> simp [slotAt, TileAutoRule.slots] at hb <;> subst hb
    · exact ⟨(some b, some (a 0)), by simp, b, a 0, rfl, rfl, hne⟩
    · exact ⟨(some b, some (a 1)), by simp, b, a 1, rfl, rfl, hne⟩
    · exact ⟨(some b, some (a 2)), by simp, b, a 2, rfl, rfl, hne⟩
    · exact ⟨(some b, some (a 3)), by simp, b, a 3, rfl, rfl, hne⟩
    · exact ⟨(some b, some (a 4)), by simp, b, a 4, rfl, rfl, hne⟩
    · exact ⟨(some b, some (a 5)), by simp, b, a 5, rfl, rfl, hne⟩
    · exact ⟨(some b, some (a 6)), by simp, b, a 6, rfl, rfl, hne⟩
    · exact ⟨(some b, some (a 7)), by simp, b, a 7, rfl, rfl, hne⟩

theorem cmp_score_of_concrete_agree (r : TileAutoRule) (a : Fin 8 → Bool)
    (h : ∀ i : Fin 8, ∀ b, slotAt r i = some b → b = a i) :
    TileAutoRule.cmp r (TileAutoRule.from_array a) =
      some ((List.finRange 8).countP fun i => decide (slotAt r i = some (a i))) := by
  obtain ⟨s0, s1, s2, s3, s4, s5, s6, s7⟩ := r
  have hfr : (List.finRange 8) = [0, 1, 2, 3, 4, 5, 6, 7] := by decide
  have e0 : s0.isSome = decide (s0 = some (a 0)) :=
    ind_eq _ _ fun b hb => h 0 b (by simpa [slotAt, TileAutoRule.slots] using hb)
  have e1 : s1.isSome = decide (s1 = some (a 1)) :=
    ind_eq _ _ fun b hb => h 1 b (by simpa [slotAt, TileAutoRule.slots] using hb)
  have e2 : s2.isSome = decide (s2 = some (a 2)) :=
    ind_eq _ _ fun b hb => h 2 b (by simpa [slotAt, TileAutoRule.slots] using hb)
  have e3 : s3.isSome = decide (s3 = some (a 3)) :=
    ind_eq _ _ fun b hb => h 3 b (by simpa [slotAt, TileAutoRule.slots] using hb)
  have e4 : s4.isSome = decide (s4 = some (a 4)) :=
    ind_eq _ _ fun b hb => h 4 b (by simpa [slotAt, TileAutoRule.slots] using hb)
  have e5 : s5.isSome = decide (s5 = some (a 5)) :=
    ind_eq _ _ fun b hb => h 5 b (by simpa [slotAt, TileAutoRule.slots] using hb)
  have e6 : s6.isSome = decide (s6 = some (a 6)) :=
    ind_eq _ _ fun b hb => h 6 b (by simpa [slotAt, TileAutoRule.slots] using hb)
  have e7 : s7.isSome = decide (s7 = some (a 7)) :=
    ind_eq _ _ fun b hb => h 7 b (by simpa [slotAt, TileAutoRule.slots] using hb)
  rw [show TileAutoRule.cmp ⟨s0, s1, s2, s3, s4, s5, s6, s7⟩ (TileAutoRule.from_array a)
      = cmpGo [(s0, some (a 0)), (s1, some (a 1)), (s2, some (a 2)), (s3, some (a 3)),
               (s4, some (a 4)), (s5, some (a 5)), (s6, some (a 6)), (s7, some (a 7))] 0
      from rfl]
  rw [cmpGo_eq_some]
  · rw [hfr]
    simp only [List.countP_cons, List.countP_nil, slotAt, TileAutoRule.slots, List.getD]
    simp only [Option.isSome_some, Bool.and_true, e0, e1, e2, e3, e4, e5, e6, e7, Nat.zero_add]
    rfl
  · intro p hp x y hx hy
    simp only [List.mem_cons, List.not_mem_nil, or_false] at hp
    rcases hp with hh | hh | hh | hh | hh | hh | hh | hh <;> subst hh <;>
      simp only at hx hy <;> injection hy with hy <;> subst hy
    · exact h 0 x (by simpa [slotAt, TileAutoRule.slots] using hx)
    · exact h 1 x (by simpa [slotAt, TileAutoRule.slots] using hx)
    · exact h 2 x (by simpa [slotAt, TileAutoRule.slots] using hx)
    · exact h 3 x (by simpa [slotAt, TileAutoRule.slots] using hx)
    · exact h 4 x (by simpa [slotAt, TileAutoRule.slots] using hx)
    · exact h 5 x (by simpa [slotAt, TileAutoRule.slots] using hx)
    · exact h 6 x (by simpa [slotAt, TileAutoRule.slots] using hx)
    · exact h 7 x (by simpa [slotAt, TileAutoRule.slots] using hx)

theorem bestFoldGo_some (tsid : String) (sig : TileAutoRule) (grp : Option Nat) :
    ∀ (l : List (Nat × TileAsset)) (acc : Nat × Option TilePointer) (p : TilePointer),
      (bestFoldGo tsid sig grp l acc).2 = some p →
      acc.2 = some p ∨
        ∃ cand rule pts, (p.idx, cand) ∈ l ∧ p.tileset = tsid ∧ cand.group = grp ∧
          cand.auto_rule = some rule ∧ rule.cmp sig = some pts := by
  intro l
  induction l with
  | nil => intro acc p h; exact Or.inl h
  | cons q rest ih =>
    intro acc p h
    obtain ⟨idx, possible⟩ := q
    simp only [bestFoldGo] at h
    rcases ih _ p h with hacc | ⟨cand, rule, pts, hmem, hts, hgrp, hrule, hcmp⟩
    · by_cases hg : possible.group = grp
      · rcases hr : possible.auto_rule with _ | pr
        · simp [hg, hr] at hacc
          exact Or.inl hacc
        · rcases hc : pr.cmp sig with _ | pts
          · simp [hg, hr, hc] at hacc
            exact Or.inl hacc
          · by_cases hle : acc.1 ≤ pts
            · simp [hg, hr, hc, hle] at hacc
              refine Or.inr ⟨possible, pr, pts, ?_, ?_, hg, hr, hc⟩
              · rw [← hacc]
                exact List.mem_cons_self _ _
              · rw [← hacc]
            · simp [hg, hr, hc, hle] at hacc
              exact Or.inl hacc
      · simp [hg] at hacc
        exact Or.inl hacc
    · exact Or.inr ⟨cand, rule, pts, List.mem_cons_of_mem _ hmem, hts, hgrp, hrule, hcmp⟩



theorem maxFrom_cons (m : Nat) (p : Nat × Nat) (l : List (Nat × Nat)) :
    maxFrom m (p :: l) = maxFrom (max m p.2) l := rfl

theorem le_maxFrom (m : Nat) (l : List (Nat × Nat)) : m ≤ maxFrom m l := by
  induction l generalizing m with
  | nil => exact le_refl m
  | cons p rest ih =>
    rw [maxFrom_cons]
    exact le_trans (le_max_left m p.2) (ih (max m p.2))

theorem maxFrom_attained (m : Nat) (l : List (Nat × Nat)) :
    maxFrom m l = m ∨ ∃ x ∈ l, x.2 = maxFrom m l := by
  induction l generalizing m with
  | nil => exact Or.inl rfl
  | cons p rest ih =>
    rw [maxFrom_cons]
    rcases ih (max m p.2) with h | ⟨x, hx, hx2⟩
    · rw [h]
      rcases Nat.le_total m p.2 with hle | hle
      · exact Or.inr ⟨p, List.mem_cons_self _ _, (max_eq_right hle).symm⟩
      · exact Or.inl (max_eq_left hle)
    · exact Or.inr ⟨x, List.mem_cons_of_mem _ hx, hx2⟩

theorem getLast?_cons_ne {α : Type} (a : α) (l : List α) (h : l ≠ []) :
    (a :: l).getLast? = l.getLast? := by
  cases l with
  | nil => exact absurd rfl h
  | cons b bs => exact List.getLast?_cons_cons

theorem scoreFold_spec (l : List (Nat × Nat)) :
    ∀ (m : Nat) (o : Option Nat),
      (scoreFold l (m, o)).2 =
        (((l.filter fun p => p.2 = maxFrom m l).getLast?).map (fun p => some p.1)).getD o := by
  induction l with
  | nil => intro m o; simp [scoreFold]
  | cons p rest ih =>
    intro m o
    by_cases hm : m ≤ p.2
    · have hmax : maxFrom m (p :: rest) = maxFrom p.2 rest := by
        rw [maxFrom_cons, max_eq_right hm]
      simp only [scoreFold, if_pos hm, hmax]
      rw [ih p.2 (some p.1)]
      rcases hrest : rest.filter (fun q => q.2 = maxFrom p.2 rest) with _ | ⟨q, qs⟩
      · have hM : maxFrom p.2 rest = p.2 := by
          rcases maxFrom_attained p.2 rest with h | ⟨x, hx, hx2⟩
          · exact h
          · exfalso
            have hxf : x ∈ rest.filter (fun q => q.2 = maxFrom p.2 rest) :=
              List.mem_filter.mpr ⟨hx, by rw [decide_eq_true_eq]; exact hx2⟩
            rw [hrest] at hxf
            simp at hxf
        have hp : (p :: rest).filter (fun q => q.2 = maxFrom p.2 rest) = [p] := by
          rw [List.filter_cons, if_pos (by rw [decide_eq_true_eq]; exact hM.symm), hrest]
        rw [hp, hrest]
        simp
      · have hne : rest.filter (fun q => q.2 = maxFrom p.2 rest) ≠ [] := by
          rw [hrest]; simp
        have hsome : ∃ lq, (rest.filter (fun q => q.2 = maxFrom p.2 rest)).getLast? = some lq := by
          rw [hrest]
          exact ⟨(q :: qs).getLast (by simp), List.getLast?_eq_getLast _ _⟩
        obtain ⟨lq, hlq⟩ := hsome
        rw [List.filter_cons]
        by_cases hpm : p.2 = maxFrom p.2 rest
        · rw [if_pos (by rw [decide_eq_true_eq]; exact hpm)]
          rw [getLast?_cons_ne _ _ hne, hlq]
          simp
        · rw [if_neg (by rw [decide_eq_true_eq]; exact hpm), hlq]
          simp
    · have hp2 : p.2 < m := Nat.lt_of_not_le hm
      have hmax : maxFrom m (p :: rest) = maxFrom m rest := by
        rw [maxFrom_cons, max_eq_left (Nat.le_of_lt hp2)]
      simp only [scoreFold, if_neg hm, hmax]
      rw [ih m o]
      have hfil : (p :: rest).filter (fun q => q.2 = maxFrom m rest) =
          rest.filter (fun q => q.2 = maxFrom m rest) := by
        rw [List.filter_cons, if_neg]
        rw [decide_eq_true_eq]
        intro hc
        have := le_maxFrom m rest
        omega
      rw [hfil]

theorem bestFoldGo_eq_scoreFold (tsid : String) (sig : TileAutoRule) (grp : Option Nat) :
    ∀ (l : List (Nat × TileAsset)) (m : Nat) (o : Option Nat),
      (bestFoldGo tsid sig grp l (m, o.map fun i => (⟨tsid, i⟩ : TilePointer))).2 =
        ((scoreFold (l.filterMap (qualifyEnum sig grp)) (m, o)).2).map
          fun i => (⟨tsid, i⟩ : TilePointer) := by
  intro l
  induction l with
  | nil => intro m o; simp [bestFoldGo, scoreFold]
  | cons q rest ih =>
    intro m o
    obtain ⟨idx, possible⟩ := q
    by_cases hg : possible.group = grp
    · rcases hr : possible.auto_rule with _ | pr
      · simp only [bestFoldGo, List.filterMap_cons, qualifyEnum, if_pos hg, hr]
        simpa [hg, hr] using ih m o
      · rcases hc : pr.cmp sig with _ | pts
        · simp only [bestFoldGo]
          rw [show (List.filterMap (qualifyEnum sig grp) ((idx, possible) :: rest))
              = List.filterMap (qualifyEnum sig grp) rest by
            simp [List.filterMap_cons, qualifyEnum, if_pos hg, hr, hc]]
          simpa [hg, hr, hc] using ih m o
        · have hq : qualifyEnum sig grp (idx, possible) = some (idx, pts) := by
            simp [qualifyEnum, if_pos hg, hr, hc]
          simp only [bestFoldGo, List.filterMap_cons, hq]
          by_cases hle : m ≤ pts
          · simp only [if_pos hg, hr, hc, if_pos hle, scoreFold]
            have := ih pts (some idx)
            simpa using this
          · simp only [if_pos hg, hr, hc, if_neg hle, scoreFold]
            exact ih m o
    · simp only [bestFoldGo, List.filterMap_cons, qualifyEnum, if_neg hg]
      simpa [hg] using ih m o

theorem map_someFst_getD_none (X : Option (Nat × Nat)) :
    (Option.map (fun p => some p.1) X).getD none = Option.map (fun p => p.1) X := by
  cases X <;> rfl

/-- Claim C4: auto-tile resolution equals the spec-side selection: among
non-disqualified scored candidates it picks the maximum score and, on
ties, the last-enumerated candidate in tileset definition order (the scan
keeps a candidate whose score is greater than or equal to the running
maximum). -/
theorem find_best_selects_last_max (level : Level) (row col : Nat)
    (tile : TileAsset) (tsid : String) :
    find_best_tile_for_index level row col tile tsid =
      (selectLastMax (qualifiedScores (Option.getD (lookupTileset level tsid) [])
          tile.group (get_auto_tile_for_index level row col tile.layer tile.group))).map
        fun i => (⟨tsid, i⟩ : TilePointer) := by
  unfold find_best_tile_for_index
  rw [show (0, (none : Option TilePointer))
      = (0, (none : Option Nat).map fun i => (⟨tsid, i⟩ : TilePointer)) from rfl]
  rw [bestFoldGo_eq_scoreFold]
  rw [scoreFold_spec]
  rw [map_someFst_getD_none]
  unfold selectLastMax qualifiedScores
  rw [show maxScore = maxFrom 0 from rfl]

theorem cell2_setCell_ne (g : TileVec) (r c : Nat) (v : Option TilePointer)
    (r' c' : Nat) (h : ¬(r' = r ∧ c' = c)) :
    cell2 (setCell g r c v) r' c' = cell2 g r' c' := by
  unfold cell2 setCell
  rw [List.get?_eq_getElem?, List.get?_eq_getElem?]
  by_cases hr : r' = r
  · subst hr
    have hc : c ≠ c' := fun he => h ⟨rfl, he.symm⟩
    by_cases hlt : r' < g.length
    · rw [List.getElem?_set_self hlt]
      have hrow : g[r']? = some (List.getD g r' []) := by
        rw [List.getD_eq_getElem?_getD, List.getElem?_eq_getElem hlt]
        rfl
      rw [hrow]
      simp only [Option.some_bind]
      rw [List.get?_eq_getElem?, List.get?_eq_getElem?, List.getElem?_set_ne hc]
    · rw [List.getElem?_len_le (by simpa using Nat.le_of_not_lt hlt),
        List.getElem?_len_le (Nat.le_of_not_lt hlt)]
  · rw [List.getElem?_set_ne (fun he => hr he.symm)]

theorem cell2_setCell_eq (g : TileVec) (r c : Nat) (v : Option TilePointer)
    (hr : r < g.length) (hc : c < (List.getD g r []).length) :
    cell2 (setCell g r c v) r c = some v := by
  unfold cell2 setCell
  rw [List.get?_eq_getElem?, List.getElem?_set_self hr]
  simp only [Option.some_bind]
  rw [List.get?_eq_getElem?, List.getElem?_set_self hc]

theorem setLayerCell_fields (level : Level) (l : TileLayer) (r c : Nat)
    (v : Option TilePointer) :
    (setLayerCell level l r c v).rows = level.rows ∧
    (setLayerCell level l r c v).cols = level.cols ∧
    (setLayerCell level l r c v).tilesets = level.tilesets := by
  cases l <;> exact ⟨rfl, rfl, rfl⟩

theorem get_layer_setLayerCell_other (level : Level) (l l' : TileLayer)
    (r c : Nat) (v : Option TilePointer) (h : l' ≠ l) :
    (setLayerCell level l r c v).get_layer l' = level.get_layer l' := by
  cases l <;> cases l' <;> first | rfl | exact absurd rfl h

theorem get_layer_setLayerCell_same (level : Level) (l : TileLayer)
    (r c : Nat) (v : Option TilePointer) :
    (setLayerCell level l r c v).get_layer l = setCell (level.get_layer l) r c v := by
  cases l <;> rfl

theorem updateNeighbor_frame (lid : TileLayer) (level : Level) (pos : ℤ × ℤ) :
    (updateNeighbor lid level pos).rows = level.rows ∧
    (updateNeighbor lid level pos).cols = level.cols ∧
    (updateNeighbor lid level pos).tilesets = level.tilesets ∧
    (∀ l', l' ≠ lid → (updateNeighbor lid level pos).get_layer l' = level.get_layer l') ∧
    (∀ r c : Nat, ¬((r : ℤ) = pos.1 ∧ (c : ℤ) = pos.2) →
      cell2 ((updateNeighbor lid level pos).get_layer lid) r c =
        cell2 (level.get_layer lid) r c) := by
  unfold updateNeighbor
  split
  · rename_i hin
    dsimp only
    split
    · rename_i tp hcell
      split
      · rename_i tile htile
        split
        · rename_i p hbest
          refine ⟨(setLayerCell_fields _ _ _ _ _).1, (setLayerCell_fields _ _ _ _ _).2.1,
            (setLayerCell_fields _ _ _ _ _).2.2,
            fun l' hl' => get_layer_setLayerCell_other _ _ _ _ _ _ hl', ?_⟩
          intro r c hne
          rw [get_layer_setLayerCell_same]
          apply cell2_setCell_ne
          intro ⟨hr, hc⟩
          apply hne
          constructor
          · rw [hr]; omega
          · rw [hc]; omega
        · exact ⟨rfl, rfl, rfl, fun _ _ => rfl, fun _ _ _ => rfl⟩
      · exact ⟨rfl, rfl, rfl, fun _ _ => rfl, fun _ _ _ => rfl⟩
    · exact ⟨rfl, rfl, rfl, fun _ _ => rfl, fun _ _ _ => rfl⟩
  · exact ⟨rfl, rfl, rfl, fun _ _ => rfl, fun _ _ _ => rfl⟩

theorem foldl_updateNeighbor_frame (lid : TileLayer) (ps : List (ℤ × ℤ)) :
    ∀ (level : Level),
      (ps.foldl (updateNeighbor lid) level).rows = level.rows ∧
      (ps.foldl (updateNeighbor lid) level).cols = level.cols ∧
      (ps.foldl (updateNeighbor lid) level).tilesets = level.tilesets ∧
      (∀ l', l' ≠ lid →
        (ps.foldl (updateNeighbor lid) level).get_layer l' = level.get_layer l') ∧
      (∀ r c : Nat, (∀ pos ∈ ps, ¬((r : ℤ) = pos.1 ∧ (c : ℤ) = pos.2)) →
        cell2 ((ps.foldl (updateNeighbor lid) level).get_layer lid) r c =
          cell2 (level.get_layer lid) r c) := by
  induction ps with
  | nil => exact fun level => ⟨rfl, rfl, rfl, fun _ _ => rfl, fun _ _ _ => rfl⟩
  | cons p rest ih =>
    intro level
    obtain ⟨hr, hc, ht, hl, hcell⟩ := ih (updateNeighbor lid level p)
    obtain ⟨ur, uc, ut, ul, ucell⟩ := updateNeighbor_frame lid level p
    refine ⟨hr.trans ur, hc.trans uc, ht.trans ut, ?_, ?_⟩
    · intro l' hl'
      rw [List.foldl_cons, hl l' hl', ul l' hl']
    · intro r c hall
      rw [List.foldl_cons,
        hcell r c (fun pos hpos => hall pos (List.mem_cons_of_mem _ hpos)),
        ucell r c (hall p (List.mem_cons_self _ _))]

theorem cell2_some_bounds (g : TileVec) (r c : Nat) (v : Option TilePointer)
    (h : cell2 g r c = some v) :
    r < g.length ∧ c < (List.getD g r []).length := by
  unfold cell2 at h
  cases hg : List.get? g r with
  | none => rw [hg] at h; exact Option.noConfusion h
  | some rowl =>
    rw [hg] at h
    simp only [Option.some_bind] at h
    constructor
    · rw [List.get?_eq_getElem?] at hg
      by_contra hge
      rw [List.getElem?_len_le (by omega)] at hg
      exact Option.noConfusion hg
    · have hgd : List.getD g r [] = rowl := by
        rw [List.getD_eq_getElem?_getD, ← List.get?_eq_getElem?, hg]
        rfl
      rw [hgd]
      rw [List.get?_eq_getElem?] at h
      by_contra hge
      rw [List.getElem?_len_le (by omega)] at h
      exact Option.noConfusion h

theorem updateNeighbor_resolves (lid : TileLayer) (L : Level) (pos : ℤ × ℤ)
    (hin : 0 ≤ pos.1 ∧ pos.1 < (L.rows : ℤ) ∧ 0 ≤ pos.2 ∧ pos.2 < (L.cols : ℤ)) :
    cell2 ((updateNeighbor lid L pos).get_layer lid) pos.1.toNat pos.2.toNat =
      resolveCell lid L pos := by
  unfold updateNeighbor resolveCell
  rw [if_pos hin]
  dsimp only
  rcases hcell : cell2 (L.get_layer lid) pos.1.toNat pos.2.toNat with _ | (_ | tp)
  · exact hcell
  · exact hcell
  · dsimp only
    rcases htile : getTile L tp with _ | tile
    · dsimp only
      exact hcell
    · dsimp only
      rcases hbest : find_best_tile_for_index L pos.1.toNat pos.2.toNat tile tp.tileset
        with _ | p
      · dsimp only
        exact hcell
      · dsimp only
        rw [get_layer_setLayerCell_same]
        obtain ⟨hb1, hb2⟩ := cell2_some_bounds _ _ _ _ hcell
        exact cell2_setCell_eq _ _ _ _ hb1 hb2

theorem ringPositions_length (row col : Nat) : (ringPositions row col).length = 8 := rfl

theorem ringPositions_nodup (row col : Nat) : (ringPositions row col).Nodup := by
  apply List.Nodup.map
  · intro a b hab
    obtain ⟨a1, a2⟩ := a
    obtain ⟨b1, b2⟩ := b
    simp only [Prod.mk.injEq] at hab ⊢
    omega
  · decide

theorem ringPositions_split (row col k : Nat) (hk : k < 8) :
    ringPositions row col =
      (ringPositions row col).take k ++
        (ringPositions row col).getD k (0, 0) :: (ringPositions row col).drop (k + 1) := by
  have hlen : (ringPositions row col).length = 8 := ringPositions_length row col
  conv_lhs => rw [← List.take_append_drop k (ringPositions row col)]
  congr 1
  rw [List.drop_eq_getElem_cons (by omega)]
  congr 1
  rw [List.getD_eq_getElem?_getD, List.getElem?_eq_getElem (by omega)]
  rfl

theorem one_ring_pos_step (lid : TileLayer) (level : Level)
    (pre suf : List (ℤ × ℤ)) (pos : ℤ × ℤ)
    (hin : 0 ≤ pos.1 ∧ pos.1 < (level.rows : ℤ) ∧ 0 ≤ pos.2 ∧ pos.2 < (level.cols : ℤ))
    (hne : ∀ q ∈ suf, q ≠ pos) :
    cell2 (((pre ++ pos :: suf).foldl (updateNeighbor lid) level).get_layer lid)
        pos.1.toNat pos.2.toNat =
      resolveCell lid (pre.foldl (updateNeighbor lid) level) pos := by
  rw [List.foldl_append, List.foldl_cons]
  obtain ⟨hr, hc, -, -, -⟩ := foldl_updateNeighbor_frame lid pre level
  have hin' : 0 ≤ pos.1 ∧ pos.1 < ((pre.foldl (updateNeighbor lid) level).rows : ℤ) ∧
      0 ≤ pos.2 ∧ pos.2 < ((pre.foldl (updateNeighbor lid) level).cols : ℤ) := by
    rw [hr, hc]
    exact hin
  obtain ⟨-, -, -, -, hcell⟩ := foldl_updateNeighbor_frame lid suf
    (updateNeighbor lid (pre.foldl (updateNeighbor lid) level) pos)
  rw [hcell pos.1.toNat pos.2.toNat ?_]
  · exact updateNeighbor_resolves lid _ pos hin'
  · intro q hq ⟨h1, h2⟩
    apply hne q hq
    have e1 : (pos.1.toNat : ℤ) = pos.1 := Int.toNat_of_nonneg hin.1
    have e2 : (pos.2.toNat : ℤ) = pos.2 := Int.toNat_of_nonneg hin.2.2.1
    rw [Prod.ext_iff]
    constructor
    · omega
    · omega

theorem set_surrounding_resolves (level : Level) (row col : Nat) (lid : TileLayer)
    (k : Nat) (hk : k < 8)
    (hin : 0 ≤ ((ringPositions row col).getD k (0, 0)).1 ∧
      ((ringPositions row col).getD k (0, 0)).1 < (level.rows : ℤ) ∧
      0 ≤ ((ringPositions row col).getD k (0, 0)).2 ∧
      ((ringPositions row col).getD k (0, 0)).2 < (level.cols : ℤ)) :
    cell2 ((set_surrounding_tiles level row col lid).get_layer lid)
        ((ringPositions row col).getD k (0, 0)).1.toNat
        ((ringPositions row col).getD k (0, 0)).2.toNat =
      resolveCell lid
        (((ringPositions row col).take k).foldl (updateNeighbor lid) level)
        ((ringPositions row col).getD k (0, 0)) := by
  have hsplit := ringPositions_split row col k hk
  have hne : ∀ q ∈ (ringPositions row col).drop (k + 1),
      q ≠ (ringPositions row col).getD k (0, 0) := by
    have hnd : (ringPositions row col).Nodup := ringPositions_nodup row col
    rw [hsplit] at hnd
    obtain ⟨-, hnd2, -⟩ := List.nodup_append.mp hnd
    have hpd := (List.nodup_cons.mp hnd2).1
    intro q hq heq
    exact hpd (heq ▸ hq)
  generalize hgp : (ringPositions row col).getD k (0, 0) = pos at hin hne hsplit ⊢
  unfold set_surrounding_tiles
  conv_lhs => rw [hsplit]
  exact one_ring_pos_step lid level ((ringPositions row col).take k)
    ((ringPositions row col).drop (k + 1)) pos hin hne

/-- Claim C7: propagation touches exactly the one ring of 8 immediate
neighbors of the edited cell in the same layer.  Frame half: the extent,
the tileset registry, every other layer, and every same-layer cell outside
that ring (including the edited cell itself) are left unchanged — the
ripple is never recursive and never reaches a second ring.  Positive half:
for each of the 8 ring positions in loop order, if it is in bounds, its
final cell value is the result of re-running scoring for its own position
on its currently stored tile (in the state left by the neighbors already
processed), the pointer being replaced when resolution yields a tile. -/
theorem set_surrounding_tiles_one_ring (level : Level) (row col : Nat) (lid : TileLayer) :
    ((set_surrounding_tiles level row col lid).rows = level.rows ∧
     (set_surrounding_tiles level row col lid).cols = level.cols ∧
     (set_surrounding_tiles level row col lid).tilesets = level.tilesets ∧
     (∀ l', l' ≠ lid →
       (set_surrounding_tiles level row col lid).get_layer l' = level.get_layer l') ∧
     (∀ r c : Nat, ((r : ℤ) - (row : ℤ), (c : ℤ) - (col : ℤ)) ∉ ringOffsets →
       cell2 ((set_surrounding_tiles level row col lid).get_layer lid) r c =
         cell2 (level.get_layer lid) r c)) ∧
    (∀ k : Nat, k < 8 →
      (0 ≤ ((ringPositions row col).getD k (0, 0)).1 ∧
        ((ringPositions row col).getD k (0, 0)).1 < (level.rows : ℤ) ∧
        0 ≤ ((ringPositions row col).getD k (0, 0)).2 ∧
        ((ringPositions row col).getD k (0, 0)).2 < (level.cols : ℤ)) →
      cell2 ((set_surrounding_tiles level row col lid).get_layer lid)
          ((ringPositions row col).getD k (0, 0)).1.toNat
          ((ringPositions row col).getD k (0, 0)).2.toNat =
        resolveCell lid
          (((ringPositions row col).take k).foldl (updateNeighbor lid) level)
          ((ringPositions row col).getD k (0, 0))) := by
  constructor
  · unfold set_surrounding_tiles
    obtain ⟨hr, hc, ht, hl, hcell⟩ :=
      foldl_updateNeighbor_frame lid (ringPositions row col) level
    refine ⟨hr, hc, ht, hl, ?_⟩
    intro r c hout
    refine hcell r c ?_
    intro pos hpos ⟨hpr, hpc⟩
    rw [ringPositions] at hpos
    obtain ⟨off, hoff, rfl⟩ := List.mem_map.mp hpos
    apply hout
    have h1 : (r : ℤ) - (row : ℤ) = off.1 := by omega
    have h2 : (c : ℤ) - (col : ℤ) = off.2 := by omega
    rw [h1, h2]
    exact hoff
  · intro k hk hin
    exact set_surrounding_resolves level row col lid k hk hin

/-- Claim C8: when auto-tile resolution selects no candidate,
`place_tile` stores the originally chosen tile pointer at (row, col) in
the tile's declared layer — a normal, non-error outcome. -/
theorem place_tile_fallback_pointer (level : Level) (row col : Nat) (editor : LevelEditorSettings)
    (ts : String) (id : Nat) (tile : TileAsset)
    (hts : editor.selected_tileset = some ts)
    (hid : editor.selected_tile = some id)
    (htile : (lookupTileset level ts).bind (fun l => List.get? l id) = some tile)
    (hnb : find_best_tile_for_index level row col tile ts = none)
    (hrow : row < (level.get_layer tile.layer).length)
    (hcol : col < (List.getD (level.get_layer tile.layer) row []).length) :
    cell2 ((place_tile level row col editor true).get_layer tile.layer) row col =
      some (some ⟨ts, id⟩) := by
  unfold place_tile
  simp only [hts, hid, htile, hnb, if_true]
  have hzero : (((row : ℤ) - (row : ℤ), (col : ℤ) - (col : ℤ)) : ℤ × ℤ) = ((0 : ℤ), (0 : ℤ)) := by
    simp
  have hout : (((row : ℤ) - (row : ℤ), (col : ℤ) - (col : ℤ)) : ℤ × ℤ) ∉ ringOffsets := by
    rw [hzero]
    decide
  obtain ⟨-, -, -, -, hcell⟩ :=
    foldl_updateNeighbor_frame tile.layer (ringPositions row col)
      (setLayerCell level tile.layer row col (some ⟨ts, id⟩))
  unfold set_surrounding_tiles
  rw [hcell row col ?_]
  · rw [get_layer_setLayerCell_same]
    exact cell2_setCell_eq _ _ _ _ hrow hcol
  · intro pos hpos ⟨hpr, hpc⟩
    rw [ringPositions] at hpos
    obtain ⟨off, hoff, rfl⟩ := List.mem_map.mp hpos
    apply hout
    have h1 : (row : ℤ) - (row : ℤ) = off.1 := by omega
    have h2 : (col : ℤ) - (col : ℤ) = off.2 := by omega
    rw [h1, h2]
    exact hoff

theorem resize_with_length {α : Type} (l : List α) (n : Nat) (d : α) :
    (resize_with l n d).length = n := by
  unfold resize_with
  rw [List.length_append, List.length_take, List.length_replicate]
  omega

theorem resize_with_get?_keep {α : Type} (l : List α) (n : Nat) (d : α) (i : Nat)
    (hi : i < l.length) (hin : i < n) :
    (resize_with l n d).get? i = l.get? i := by
  unfold resize_with
  rw [List.get?_eq_getElem?, List.getElem?_append_left (by rw [List.length_take]; omega),
    List.getElem?_take_of_lt hin, List.get?_eq_getElem?]

theorem resize_with_get?_new {α : Type} (l : List α) (n : Nat) (d : α) (i : Nat)
    (hi : l.length ≤ i) (hin : i < n) :
    (resize_with l n d).get? i = some d := by
  unfold resize_with
  rw [List.get?_eq_getElem?, List.getElem?_append_right (by rw [List.length_take]; omega)]
  rw [List.length_take]
  rw [List.getElem?_replicate_of_lt (by omega)]

theorem resizeGrid_spec (g : TileVec) (rows0 cols0 r c : Nat)
    (hlen : g.length = rows0) (hrows : ∀ row ∈ g, row.length = cols0) :
    (resizeGrid g r c).length = r ∧
    (∀ row ∈ resizeGrid g r c, row.length = c) ∧
    (∀ i j : Nat, i < rows0 → i < r → j < cols0 → j < c →
      cell2 (resizeGrid g r c) i j = cell2 g i j) ∧
    (∀ i j : Nat, i < r → j < c → (rows0 ≤ i ∨ cols0 ≤ j) →
      cell2 (resizeGrid g r c) i j = some none) := by
  refine ⟨?_, ?_, ?_, ?_⟩
  · rw [resizeGrid, resize_with_length]
  · intro row hrow
    unfold resizeGrid resize_with at hrow
    rcases List.mem_append.mp hrow with hmem | hmem
    · obtain ⟨row0, hrow0, rfl⟩ := List.mem_map.mp (List.mem_of_mem_take hmem)
      exact resize_with_length _ _ _
    · rw [List.eq_of_mem_replicate hmem, List.length_replicate]
  · intro i j hi0 hir hj0 hjc
    unfold cell2 resizeGrid
    rw [resize_with_get?_keep _ _ _ i (by rw [List.length_map]; omega) hir]
    rw [List.get?_eq_getElem?, List.getElem?_map, ← List.get?_eq_getElem?]
    cases hgi : g.get? i with
    | none =>
      rw [List.get?_eq_getElem?] at hgi
      rw [List.getElem?_eq_none_iff] at hgi
      omega
    | some row =>
      have hrl : row.length = cols0 := hrows row (List.get?_mem hgi)
      simp only [Option.map_some', Option.some_bind]
      rw [resize_with_get?_keep _ _ _ j (by omega) hjc]
  · intro i j hir hjc hnew
    unfold cell2 resizeGrid
    rcases hnew with hnewr | hnewc
    · rw [resize_with_get?_new _ _ _ i (by rw [List.length_map]; omega) hir]
      simp only [Option.some_bind]
      rw [List.get?_eq_getElem?, List.getElem?_replicate_of_lt hjc]
    · by_cases hi0 : i < rows0
      · rw [resize_with_get?_keep _ _ _ i (by rw [List.length_map]; omega) hir]
        rw [List.get?_eq_getElem?, List.getElem?_map, ← List.get?_eq_getElem?]
        cases hgi : g.get? i with
        | none =>
          rw [List.get?_eq_getElem?, List.getElem?_eq_none_iff] at hgi
          omega
        | some row =>
          have hrl : row.length = cols0 := hrows row (List.get?_mem hgi)
          simp only [Option.map_some', Option.some_bind]
          rw [resize_with_get?_new _ _ _ j (by omega) hjc]
      · rw [resize_with_get?_new _ _ _ i (by rw [List.length_map]; omega) hir]
        simp only [Option.some_bind]
        rw [List.get?_eq_getElem?, List.getElem?_replicate_of_lt hjc]

theorem firstHit_eq_none (probe : ℚ → Option TileHitInfo) (l : List ℚ)
    (h : ∀ p ∈ l, probe p = none) : firstHit probe l = none := by
  induction l with
  | nil => rfl
  | cons p rest ih =>
    unfold firstHit
    rw [h p (List.mem_cons_self _ _)]
    exact ih fun q hq => h q (List.mem_cons_of_mem _ hq)

theorem sweepLoop_eq_firstHit (probe : ℚ → Option TileHitInfo) (far s : ℚ)
    (hs : 0 ≤ s) :
    ∀ (K : Nat) (start : ℚ), far ≤ start + (K : ℚ) * s →
      sweepLoop probe far s start (K + 1) =
        some (firstHit probe
          ((List.range (K + 1)).map fun k : ℕ => min (start + (k : ℚ) * s) far)) := by
  intro K
  induction K with
  | zero =>
    intro start h
    rw [Nat.cast_zero, zero_mul, add_zero] at h
    have hv : (if far < start then far else start) = far := by
      by_cases hlt : far < start
      · rw [if_pos hlt]
      · rw [if_neg hlt]
        exact le_antisymm (le_of_not_lt hlt) h
    have hlist : (List.range 1).map (fun k : ℕ => min (start + (k : ℚ) * s) far) = [far] := by
      rw [show List.range 1 = [0] from rfl]
      simp [min_eq_right h]
    rw [hlist]
    unfold sweepLoop
    rw [hv]
    cases hp : probe far with
    | some hit => simp [firstHit, hp]
    | none => simp [firstHit, hp]
  | succ K ih =>
    intro start h
    unfold sweepLoop
    by_cases hfs : far < start
    · rw [if_pos hfs]
      have hhead : min (start + ((0 : ℕ) : ℚ) * s) far = far := by
        rw [Nat.cast_zero, zero_mul, add_zero]
        exact min_eq_right (le_of_lt hfs)
      rw [List.range_succ_eq_map, List.map_cons, hhead]
      dsimp only
      cases hp : probe far with
      | some hit => simp [firstHit, hp]
      | none =>
        simp only [hp, if_pos rfl, firstHit]
        rw [firstHit_eq_none]
        · simp
        · intro p hp2
          obtain ⟨k, -, rfl⟩ := List.mem_map.mp hp2
          have hmin : min (start + (k : ℚ) * s) far = far := by
            apply min_eq_right
            have : (0 : ℚ) ≤ (k : ℚ) * s := mul_nonneg (Nat.cast_nonneg k) hs
            linarith [le_of_lt hfs]
          rw [hmin, hp]
    · rw [if_neg hfs]
      have hsf : start ≤ far := le_of_not_lt hfs
      have hhead : min (start + ((0 : ℕ) : ℚ) * s) far = start := by
        rw [Nat.cast_zero, zero_mul, add_zero]
        exact min_eq_left hsf
      rw [List.range_succ_eq_map, List.map_cons, hhead]
      dsimp only
      cases hp : probe start with
      | some hit => simp [firstHit, hp]
      | none =>
        simp only [hp, firstHit]
        by_cases heq : start = far
        · rw [if_pos heq]
          rw [firstHit_eq_none]
          intro p hp2
          obtain ⟨k, -, rfl⟩ := List.mem_map.mp hp2
          have hmin : min (start + (k : ℚ) * s) far = far := by
            apply min_eq_right
            have : (0 : ℚ) ≤ (k : ℚ) * s := mul_nonneg (Nat.cast_nonneg k) hs
            linarith
          rw [hmin, ← heq, hp]
        · rw [if_neg heq]
          have hbound : far ≤ (start + s) + (K : ℚ) * s := by
            push_cast at h
            linarith
          rw [ih (start + s) hbound]
          congr 2
          rw [List.map_map]
          apply List.map_congr_left
          intro k _
          simp only [Function.comp]
          congr 1
          push_cast
          ring

theorem vertStep_pos : (0 : ℚ) < vertStep := by
  norm_num [vertStep, TILE_SIZE, TILE_COLLISION_SECTIONS]

theorem extent_le_fuel_mul (extent : ℚ) :
    extent ≤ ((Int.ceil (extent / vertStep)).toNat + 1 : ℚ) * vertStep := by
  have hs : (0 : ℚ) < vertStep := vertStep_pos
  have h1 : extent / vertStep ≤ ((Int.ceil (extent / vertStep)).toNat : ℚ) := by
    calc extent / vertStep ≤ (Int.ceil (extent / vertStep) : ℚ) := Int.le_ceil _
    _ ≤ ((Int.ceil (extent / vertStep)).toNat : ℚ) := by
        exact_mod_cast Int.self_le_toNat _
  have h2 : extent / vertStep ≤ ((Int.ceil (extent / vertStep)).toNat + 1 : ℚ) := by
    push_cast at h1 ⊢
    linarith
  calc extent = extent / vertStep * vertStep := by field_simp
  _ ≤ ((Int.ceil (extent / vertStep)).toNat + 1 : ℚ) * vertStep := by
      apply mul_le_mul_of_nonneg_right h2 (le_of_lt hs)

theorem sweepFuel_succ (extent : ℚ) :
    sweepFuel extent = ((Int.ceil (extent / vertStep)).toNat + 1) + 1 := by
  unfold sweepFuel
  omega

theorem sweep_bound (start extent : ℚ) :
    start + extent ≤
      start + (((Int.ceil (extent / vertStep)).toNat + 1 : ℕ) : ℚ) * vertStep := by
  have := extent_le_fuel_mul extent
  push_cast
  push_cast at this
  linarith

theorem sweepLoop_full (probe : ℚ → Option TileHitInfo) (start extent : ℚ) :
    sweepLoop probe (start + extent) vertStep start (sweepFuel extent) =
      some (firstHit probe (sweepPoints start extent)) := by
  rw [sweepFuel_succ]
  rw [sweepLoop_eq_firstHit probe (start + extent) vertStep (le_of_lt vertStep_pos)
    ((Int.ceil (extent / vertStep)).toNat + 1) start (sweep_bound start extent)]
  rfl

theorem sweepPoints_getLast (start extent : ℚ) :
    (sweepPoints start extent).getLast? = some (start + extent) := by
  unfold sweepPoints
  rw [sweepFuel_succ, List.range_succ, List.map_append, List.map_singleton]
  rw [List.getLast?_concat]
  congr 1
  apply min_eq_right
  have := sweep_bound start extent
  push_cast
  push_cast at this
  linarith

/-- Claim C9: each per-axis sweep loop terminates within its iteration
bound and equals the first hit over the probe sequence that advances in
steps of tile_size divided by the section count, clamped so that the final
probe lands exactly on the far edge even when the step does not divide the
extent evenly. -/
theorem sweep_terminates_first_hit (probe : ℚ → Option TileHitInfo) (start extent : ℚ) :
    sweepLoop probe (start + extent) vertStep start (sweepFuel extent) =
      some (firstHit probe (sweepPoints start extent)) ∧
    (sweepPoints start extent).getLast? = some (start + extent) :=
  ⟨sweepLoop_full probe start extent, sweepPoints_getLast start extent⟩


theorem check_for_collision_emptyLevel (x y : ℚ) :
    check_for_collision emptyLevel x y = none := by
  unfold check_for_collision
  dsimp only
  have hcell : cell2 emptyLevel.object (rowIndex y) (colIndex x) = some none ∨
      cell2 emptyLevel.object (rowIndex y) (colIndex x) = none := by
    match hr : rowIndex y, hc : colIndex x with
    | 0, 0 => left; rfl
    | 0, c+1 => right; rfl
    | r+1, c => right; rfl
  rcases hcell with h | h <;> rw [h]

theorem body_move_y_x (level : Level) (box : Rect) (dy : ℚ) :
    (body_move_y level box dy).x = box.x := by
  unfold body_move_y
  dsimp only
  split <;> rfl

/-- Claim C2 (amended): a zero velocity component makes the sweep run in
the non-positive direction, probing the trailing (left / top) edge at the
current position; whenever none of those probes hits — in particular
whenever the box does not overlap solid geometry — the axis is left
unchanged, and a fully zero velocity leaves the whole box unchanged. -/
theorem move_zero_velocity_trailing_edge (level : Level) (box : Rect) (dx dy : ℚ)
    (hdx : dx = 0) (hdy : dy = 0)
    (hx : ∀ v ∈ sweepPoints box.y box.h, check_for_collision level box.x v = none)
    (hy : ∀ p ∈ sweepPoints box.x box.w, check_for_collision level p box.y = none) :
    body_move_x level box dx = box ∧ body_move_y level box dy = box ∧
    ∀ dt : ℚ, body_move level box (dx, dy) dt = box := by
  subst hdx hdy
  have hmx : body_move_x level box 0 = box := by
    unfold body_move_x
    dsimp only
    have hprobe : (fun v => if 0 < (0 : ℚ) then
          check_for_collision level (box.x + 0 + box.w) v
        else check_for_collision level (box.x + 0) v) =
        fun v => check_for_collision level box.x v := by
      funext v
      rw [if_neg (by norm_num), add_zero]
    rw [hprobe, sweepLoop_full _ box.y box.h, firstHit_eq_none _ _ hx]
    dsimp only
    obtain ⟨bx, byv, bw, bh⟩ := box
    simp
  have hmy : body_move_y level box 0 = box := by
    unfold body_move_y
    dsimp only
    have hprobe : (fun p => if 0 < (0 : ℚ) then
          check_for_collision level p (box.y + 0 + box.h)
        else check_for_collision level p (box.y + 0)) =
        fun p => check_for_collision level p box.y := by
      funext p
      rw [if_neg (by norm_num), add_zero]
    rw [hprobe, sweepLoop_full _ box.x box.w, firstHit_eq_none _ _ hy]
    dsimp only
    obtain ⟨bx, byv, bw, bh⟩ := box
    simp
  refine ⟨hmx, hmy, ?_⟩
  intro dt
  unfold body_move
  dsimp only
  rw [zero_mul, hmx, hmy]

/-- Counterexample to C2 as stated: a box overlapping the solid cell of
the demo level is displaced on the x axis by a move with zero velocity. -/
theorem move_zero_velocity_counterexample : (body_move demoLevel demoBox (0, 0) 1).x ≠ demoBox.x := by
  have hc : check_for_collision demoLevel 8 0 = some ⟨0, 1/3⟩ := by
    have f1 : Int.floor ((0 : ℚ) / 16) = 0 := by apply floorQ <;> norm_num
    have f2 : Int.floor ((8 : ℚ) / 16) = 0 := by apply floorQ <;> norm_num
    have f3 : Int.floor ((0 : ℚ) / (16 / 3)) = 0 := by apply floorQ <;> norm_num
    have f4 : Int.floor ((8 : ℚ) / (16 / 3)) = 1 := by apply floorQ <;> norm_num
    simp only [check_for_collision, rowIndex, colIndex, TILE_SIZE, TILE_COLLISION_SECTIONS]
    norm_num [f1, f2, f3, f4, demoLevel, cell2, getTile, lookupTileset, solidTile, matrixGet,
      CollisionMatrix.new]
  have hfuel : sweepFuel (16 : ℚ) = 5 := by
    have : Int.ceil ((16 : ℚ) / (16 / 3)) = 3 := by apply ceilQ <;> norm_num
    simp [sweepFuel, vertStep, TILE_SIZE, TILE_COLLISION_SECTIONS, this]
  have hx : (body_move_x demoLevel demoBox (0 * 1)).x = 32 / 3 := by
    rw [show ((0 : ℚ) * 1) = 0 by norm_num]
    simp only [body_move_x, demoBox, hfuel]
    norm_num [sweepLoop, hc, TileHitInfo.from_right, TILE_SIZE, TILE_COLLISION_SECTIONS]
  unfold body_move
  rw [body_move_y_x, hx]
  norm_num [demoBox]

theorem clearIf_layer_other (level : Level) (flag : Bool) (l l' : TileLayer)
    (row col : Nat) (h : l' ≠ l) :
    ((if flag then setLayerCell level l row col none else level).get_layer l') =
      level.get_layer l' := by
  cases flag
  · rfl
  · exact get_layer_setLayerCell_other level l l' row col none h

theorem clearIf_frame (level : Level) (flag : Bool) (l l'' : TileLayer)
    (row col r c : Nat) (hne : ¬(r = row ∧ c = col)) :
    cell2 ((if flag then setLayerCell level l row col none else level).get_layer l'') r c =
      cell2 (level.get_layer l'') r c := by
  cases flag
  · rfl
  · rw [if_pos rfl]
    by_cases hl : l'' = l
    · subst hl
      rw [get_layer_setLayerCell_same]
      exact cell2_setCell_ne _ _ _ _ _ _ hne
    · rw [get_layer_setLayerCell_other _ _ _ _ _ _ hl]

theorem place_tile_clear_shape (level : Level) (row col : Nat)
    (editor : LevelEditorSettings)
    (hsel : editor.selected_tileset = none ∨ editor.selected_tile = none) :
    place_tile level row col editor false =
      (let l1 := if editor.show_background then
          setLayerCell level TileLayer.Background row col none else level
       let l2 := if editor.show_object then
          setLayerCell l1 TileLayer.Object row col none else l1
       if editor.show_overlay then
          setLayerCell l2 TileLayer.Overlay row col none else l2) := by
  unfold place_tile
  rcases hsel with h | h
  · rw [h]
    cases htl : editor.selected_tile <;> rfl
  · rw [h]
    cases hts : editor.selected_tileset <;> rfl

/-- Claim C1 (amended): placing with no tile selected clears the cell at
(row, col) in exactly those layers whose editor visibility flag is on (all
three under the default all-visible editor), leaving hidden layers and all
other cells untouched; placing a concrete tile (propagation off) mutates
only the cell in that tile's own declared layer. -/
theorem place_tile_clear_visibility (level : Level) (row col : Nat) (editor : LevelEditorSettings) :
    ((editor.selected_tileset = none ∨ editor.selected_tile = none) →
      ∀ layer : TileLayer,
        (showFlag editor layer = true →
          row < (level.get_layer layer).length →
          col < (List.getD (level.get_layer layer) row []).length →
          cell2 ((place_tile level row col editor false).get_layer layer) row col = some none)
        ∧ (showFlag editor layer = false →
          (place_tile level row col editor false).get_layer layer = level.get_layer layer)
        ∧ (∀ r c : Nat, ¬(r = row ∧ c = col) →
          cell2 ((place_tile level row col editor false).get_layer layer) r c =
            cell2 (level.get_layer layer) r c))
    ∧ (∀ (ts : String) (id : Nat) (tile : TileAsset),
        editor.selected_tileset = some ts → editor.selected_tile = some id →
        (lookupTileset level ts).bind (fun l => List.get? l id) = some tile →
        (row < (level.get_layer tile.layer).length →
          col < (List.getD (level.get_layer tile.layer) row []).length →
          cell2 ((place_tile level row col editor false).get_layer tile.layer) row col =
            some (some ⟨ts, id⟩))
        ∧ (∀ l', l' ≠ tile.layer →
          (place_tile level row col editor false).get_layer l' = level.get_layer l')
        ∧ (∀ r c : Nat, ¬(r = row ∧ c = col) →
          cell2 ((place_tile level row col editor false).get_layer tile.layer) r c =
            cell2 (level.get_layer tile.layer) r c)) := by
  constructor
  · intro hsel layer
    rw [place_tile_clear_shape level row col editor hsel]
    dsimp only
    cases layer with
    | Background =>
      refine ⟨?_, ?_, ?_⟩
      · intro hf hrow hcol
        rw [clearIf_layer_other _ _ _ _ _ _ (by decide : TileLayer.Background ≠ TileLayer.Overlay),
          clearIf_layer_other _ _ _ _ _ _ (by decide : TileLayer.Background ≠ TileLayer.Object)]
        rw [showFlag] at hf
        rw [hf, if_pos rfl, get_layer_setLayerCell_same]
        exact cell2_setCell_eq _ _ _ _ hrow hcol
      · intro hf
        rw [clearIf_layer_other _ _ _ _ _ _ (by decide : TileLayer.Background ≠ TileLayer.Overlay),
          clearIf_layer_other _ _ _ _ _ _ (by decide : TileLayer.Background ≠ TileLayer.Object)]
        rw [showFlag] at hf
        rw [hf, if_neg (by simp)]
      · intro r c hne
        rw [clearIf_frame _ _ _ _ _ _ _ _ hne, clearIf_frame _ _ _ _ _ _ _ _ hne,
          clearIf_frame _ _ _ _ _ _ _ _ hne]
    | Object =>
      have hO : ((if editor.show_background then
          setLayerCell level TileLayer.Background row col none else level).get_layer
            TileLayer.Object) = level.get_layer TileLayer.Object :=
        clearIf_layer_other _ _ _ _ _ _ (by decide)
      refine ⟨?_, ?_, ?_⟩
      · intro hf hrow hcol
        rw [clearIf_layer_other _ _ _ _ _ _ (by decide : TileLayer.Object ≠ TileLayer.Overlay)]
        rw [showFlag] at hf
        rw [hf, if_pos rfl, get_layer_setLayerCell_same, hO]
        exact cell2_setCell_eq _ _ _ _ hrow hcol
      · intro hf
        rw [clearIf_layer_other _ _ _ _ _ _ (by decide : TileLayer.Object ≠ TileLayer.Overlay)]
        rw [showFlag] at hf
        rw [hf, if_neg (by simp)]
        exact hO
      · intro r c hne
        rw [clearIf_frame _ _ _ _ _ _ _ _ hne, clearIf_frame _ _ _ _ _ _ _ _ hne,
          clearIf_frame _ _ _ _ _ _ _ _ hne]
    | Overlay =>
      have hO1 : ((if editor.show_background then
          setLayerCell level TileLayer.Background row col none else level).get_layer
            TileLayer.Overlay) = level.get_layer TileLayer.Overlay :=
        clearIf_layer_other _ _ _ _ _ _ (by decide)
      refine ⟨?_, ?_, ?_⟩
      · intro hf hrow hcol
        rw [showFlag] at hf
        rw [hf, if_pos rfl, get_layer_setLayerCell_same]
        rw [clearIf_layer_other _ _ _ _ _ _ (by decide : TileLayer.Overlay ≠ TileLayer.Object), hO1]
        exact cell2_setCell_eq _ _ _ _ hrow hcol
      · intro hf
        rw [showFlag] at hf
        rw [hf, if_neg (by simp)]
        rw [clearIf_layer_other _ _ _ _ _ _ (by decide : TileLayer.Overlay ≠ TileLayer.Object), hO1]
      · intro r c hne
        rw [clearIf_frame _ _ _ _ _ _ _ _ hne, clearIf_frame _ _ _ _ _ _ _ _ hne,
          clearIf_frame _ _ _ _ _ _ _ _ hne]
  · intro ts id tile hts hid htile
    have hred : place_tile level row col editor false =
        setLayerCell level tile.layer row col (some ⟨ts, id⟩) := by
      unfold place_tile
      rw [hts, hid]
      simp only [htile]
      rw [if_neg (by simp)]
    refine ⟨?_, ?_, ?_⟩
    · intro hrow hcol
      rw [hred, get_layer_setLayerCell_same]
      exact cell2_setCell_eq _ _ _ _ hrow hcol
    · intro l' hl'
      rw [hred]
      exact get_layer_setLayerCell_other _ _ _ _ _ _ hl'
    · intro r c hne
      rw [hred, get_layer_setLayerCell_same]
      exact cell2_setCell_ne _ _ _ _ _ _ hne

/-- Counterexample to C1 as stated: with the object layer hidden in the
editor, an explicit clear at (0,0) leaves the object-layer cell occupied
instead of emptying all three layers. -/
theorem place_tile_clear_counterexample :
    cell2 ((place_tile demoLevel 0 0 editorNoObj false).get_layer TileLayer.Object) 0 0 =
      some (some ⟨"t", 0⟩) := by decide

/-- Claim C5: for a point inside the grid the collision probe reports a
hit exactly when the object-layer cell at (floor(y/tile_size),
floor(x/tile_size)) holds a resolvable tile whose collision matrix is
present and whose sub-cell at the floored fractional offsets is true; an
empty cell, a missing matrix, or a false sub-cell each yield no hit. -/
theorem check_for_collision_hit_iff (level : Level) (x y : ℚ) (hx : 0 ≤ x) (hy : 0 ≤ y)
    (hxc : x < (level.cols : ℚ) * TILE_SIZE) (hyr : y < (level.rows : ℚ) * TILE_SIZE) :
    (check_for_collision level x y).isSome = true ↔
      ∃ ptr tile cm,
        cell2 level.object (Int.floor (y / TILE_SIZE)).toNat
          (Int.floor (x / TILE_SIZE)).toNat = some (some ptr) ∧
        getTile level ptr = some tile ∧
        tile.collision_matrix = some cm ∧
        matrixGet cm
          (Int.floor ((y - ((Int.floor (y / TILE_SIZE) : ℤ) : ℚ) * TILE_SIZE) /
            (TILE_SIZE / TILE_COLLISION_SECTIONS))).toNat
          (Int.floor ((x - ((Int.floor (x / TILE_SIZE) : ℤ) : ℚ) * TILE_SIZE) /
            (TILE_SIZE / TILE_COLLISION_SECTIONS))).toNat = true := by
  unfold check_for_collision rowIndex colIndex
  dsimp only
  cases hcell : cell2 level.object (Int.floor (y / TILE_SIZE)).toNat
      (Int.floor (x / TILE_SIZE)).toNat with
  | none => simp [hcell]
  | some inner =>
    cases inner with
    | none => simp [hcell]
    | some ptr =>
      cases htile : getTile level ptr with
      | none => simp [hcell, htile]
      | some tile =>
        cases hcm : tile.collision_matrix with
        | none => simp [hcell, htile, hcm]
        | some cm =>
          by_cases hmg : matrixGet cm
              (Int.floor ((y - ((Int.floor (y / TILE_SIZE) : ℤ) : ℚ) * TILE_SIZE) /
                (TILE_SIZE / TILE_COLLISION_SECTIONS))).toNat
              (Int.floor ((x - ((Int.floor (x / TILE_SIZE) : ℤ) : ℚ) * TILE_SIZE) /
                (TILE_SIZE / TILE_COLLISION_SECTIONS))).toNat = true
          · simp [hcell, htile, hcm, hmg]
          · simp [hcell, htile, hcm, hmg]

/-- Claim C10: a negative world coordinate floors to a negative value
whose saturating usize cast is 0, so the probe consults row 0 / column 0;
consequently a point above the grid over a solid tile in row 0 reports a
hit. -/
theorem negative_coords_saturate_row_zero :
    (∀ y : ℚ, y < 0 → rowIndex y = 0) ∧
    (∀ x : ℚ, x < 0 → colIndex x = 0) ∧
    (check_for_collision demoLevel 5 (-1)).isSome = true := by
  have hsat : ∀ q : ℚ, q < 0 → (Int.floor (q / TILE_SIZE)).toNat = 0 := by
    intro q hq
    apply Int.toNat_of_nonpos
    have hdiv : q / TILE_SIZE < 0 :=
      div_neg_of_neg_of_pos hq (by norm_num [TILE_SIZE])
    have := Int.floor_le (q / TILE_SIZE)
    by_contra hpos
    push_neg at hpos
    have h1 : (1 : ℤ) ≤ Int.floor (q / TILE_SIZE) := hpos
    have h2 : (1 : ℚ) ≤ ((Int.floor (q / TILE_SIZE) : ℤ) : ℚ) := by exact_mod_cast h1
    linarith
  refine ⟨fun y hy => hsat y hy, fun x hx => hsat x hx, ?_⟩
  have f1 : Int.floor ((-1 : ℚ) / 16) = -1 := by apply floorQ <;> norm_num
  have f2 : Int.floor ((5 : ℚ) / 16) = 0 := by apply floorQ <;> norm_num
  have f3 : Int.floor (((-1 : ℚ) - (-1 : ℤ) * 16) / (16 / 3)) = 2 := by
    apply floorQ <;> norm_num
  have f4 : Int.floor (((5 : ℚ) - (0 : ℤ) * 16) / (16 / 3)) = 0 := by
    apply floorQ <;> norm_num
  simp only [check_for_collision, rowIndex, colIndex, TILE_SIZE, TILE_COLLISION_SECTIONS]
  norm_num [f1, f2, f3, f4, demoLevel, cell2, getTile, lookupTileset, solidTile, matrixGet,
    CollisionMatrix.new, show Int.toNat 2 = 2 from rfl]

/-- Claim C3: against any fully concrete neighbor signature, a candidate
rule is disqualified (`cmp` returns `none`) exactly when one of its
concrete slots disagrees with the signature; when every concrete slot
agrees its score is the count of agreeing concrete slots (wildcards add
nothing); and a pointer returned by `find_best_tile_for_index` always
refers to a group-matching candidate whose rule was not disqualified. -/
theorem auto_rule_scoring_spec (r : TileAutoRule) (a : Fin 8 → Bool) :
    (TileAutoRule.cmp r (TileAutoRule.from_array a) = none ↔
      ∃ i : Fin 8, ∃ b, slotAt r i = some b ∧ b ≠ a i)
    ∧ ((∀ i : Fin 8, ∀ b, slotAt r i = some b → b = a i) →
      TileAutoRule.cmp r (TileAutoRule.from_array a) =
        some ((List.finRange 8).countP fun i => decide (slotAt r i = some (a i))))
    ∧ (∀ (level : Level) (row col : Nat) (tile : TileAsset) (tsid : String)
        (p : TilePointer),
        find_best_tile_for_index level row col tile tsid = some p →
        ∃ cand rule pts,
          List.get? (Option.getD (lookupTileset level tsid) []) p.idx = some cand ∧
          cand.group = tile.group ∧ cand.auto_rule = some rule ∧
          rule.cmp (get_auto_tile_for_index level row col tile.layer tile.group) =
            some pts) := by
  refine ⟨cmp_none_iff_concrete_mismatch r a, cmp_score_of_concrete_agree r a, ?_⟩
  intro level row col tile tsid p hfind
  unfold find_best_tile_for_index at hfind
  rcases bestFoldGo_some tsid
      (get_auto_tile_for_index level row col tile.layer tile.group) tile.group
      (List.enum (Option.getD (lookupTileset level tsid) [])) (0, none) p hfind with
    hacc | ⟨cand, rule, pts, hmem, hts, hgrp, hrule, hcmp⟩
  · exact Option.noConfusion hacc
  · exact ⟨cand, rule, pts, List.mk_mem_enum_iff_get?.mp hmem, hgrp, hrule, hcmp⟩

/-- Claim C6: resizing a well-formed level to (r, c) yields exactly r rows
of c cells in each of the three layers, preserves the top-left
min(old, new) region verbatim, and fills every newly created cell empty. -/
theorem level_resize_spec (level : Level) (r c : Nat)
    (hwf : ∀ layer : TileLayer, (level.get_layer layer).length = level.rows ∧
      ∀ row ∈ level.get_layer layer, row.length = level.cols) :
    (level_resize level r c).rows = r ∧ (level_resize level r c).cols = c ∧
    ∀ layer : TileLayer,
      ((level_resize level r c).get_layer layer).length = r ∧
      (∀ row ∈ (level_resize level r c).get_layer layer, row.length = c) ∧
      (∀ i j : Nat, i < min level.rows r → j < min level.cols c →
        cell2 ((level_resize level r c).get_layer layer) i j =
          cell2 (level.get_layer layer) i j) ∧
      (∀ i j : Nat, i < r → j < c → (level.rows ≤ i ∨ level.cols ≤ j) →
        cell2 ((level_resize level r c).get_layer layer) i j = some none) := by
  refine ⟨rfl, rfl, ?_⟩
  intro layer
  obtain ⟨h1, h2⟩ := hwf layer
  have hgrid : (level_resize level r c).get_layer layer =
      resizeGrid (level.get_layer layer) r c := by
    cases layer <;> rfl
  obtain ⟨s1, s2, s3, s4⟩ := resizeGrid_spec (level.get_layer layer)
    level.rows level.cols r c h1 h2
  rw [hgrid]
  refine ⟨s1, s2, ?_, s4⟩
  intro i j hi hj
  exact s3 i j (by omega) (by omega) (by omega) (by omega)

/-- Witness for C1: with the default editor (all layers shown) a clear
empties the object cell; with the object layer hidden the object layer is
untouched. -/
theorem place_tile_clear_visibility_witness :
    cell2 ((place_tile demoLevel 0 0 editorAll false).get_layer TileLayer.Object) 0 0 =
      some none ∧
    (place_tile demoLevel 0 0 editorNoObj false).get_layer TileLayer.Object =
      demoLevel.get_layer TileLayer.Object :=
  ⟨((place_tile_clear_visibility demoLevel 0 0 editorAll).1 (Or.inl rfl)
      TileLayer.Object).1 rfl (by decide) (by decide),
    ((place_tile_clear_visibility demoLevel 0 0 editorNoObj).1 (Or.inl rfl)
      TileLayer.Object).2.1 rfl⟩

/-- Witness for C2: on a level with no solid geometry a zero-velocity move
leaves the box unchanged. -/
theorem move_zero_velocity_witness :
    body_move_x emptyLevel demoBox 0 = demoBox ∧
    body_move_y emptyLevel demoBox 0 = demoBox ∧
    ∀ dt : ℚ, body_move emptyLevel demoBox (0, 0) dt = demoBox :=
  move_zero_velocity_trailing_edge emptyLevel demoBox 0 0 rfl rfl
    (fun v _ => check_for_collision_emptyLevel demoBox.x v)
    (fun p _ => check_for_collision_emptyLevel p demoBox.y)

/-- Witness for C3: a rule whose only concrete slot agrees with an
all-solid signature scores exactly its one concrete slot. -/
theorem auto_rule_scoring_spec_witness :
    TileAutoRule.cmp ⟨some true, none, none, none, none, none, none, none⟩
      (TileAutoRule.from_array fun _ => true) =
      some ((List.finRange 8).countP fun i =>
        decide (slotAt ⟨some true, none, none, none, none, none, none, none⟩ i =
          some true)) :=
  (auto_rule_scoring_spec ⟨some true, none, none, none, none, none, none, none⟩
    (fun _ => true)).2.1 (by decide)

/-- Witness for C5: the probe characterization instantiated inside the
1x1 demo level. -/
theorem check_for_collision_hit_iff_witness :
    (check_for_collision demoLevel 5 1).isSome = true ↔
      ∃ ptr tile cm,
        cell2 demoLevel.object (Int.floor ((1 : ℚ) / TILE_SIZE)).toNat
          (Int.floor ((5 : ℚ) / TILE_SIZE)).toNat = some (some ptr) ∧
        getTile demoLevel ptr = some tile ∧
        tile.collision_matrix = some cm ∧
        matrixGet cm
          (Int.floor (((1 : ℚ) - ((Int.floor ((1 : ℚ) / TILE_SIZE) : ℤ) : ℚ) * TILE_SIZE) /
            (TILE_SIZE / TILE_COLLISION_SECTIONS))).toNat
          (Int.floor (((5 : ℚ) - ((Int.floor ((5 : ℚ) / TILE_SIZE) : ℤ) : ℚ) * TILE_SIZE) /
            (TILE_SIZE / TILE_COLLISION_SECTIONS))).toNat = true :=
  check_for_collision_hit_iff demoLevel 5 1 (by norm_num) (by norm_num)
    (by norm_num [demoLevel, TILE_SIZE]) (by norm_num [demoLevel, TILE_SIZE])

/-- Witness for C6: resizing the 1x1 demo level to 2x3. -/
theorem level_resize_spec_witness :
    (level_resize demoLevel 2 3).rows = 2 ∧ (level_resize demoLevel 2 3).cols = 3 ∧
    ∀ layer : TileLayer,
      ((level_resize demoLevel 2 3).get_layer layer).length = 2 ∧
      (∀ row ∈ (level_resize demoLevel 2 3).get_layer layer, row.length = 3) ∧
      (∀ i j : Nat, i < min demoLevel.rows 2 → j < min demoLevel.cols 3 →
        cell2 ((level_resize demoLevel 2 3).get_layer layer) i j =
          cell2 (demoLevel.get_layer layer) i j) ∧
      (∀ i j : Nat, i < 2 → j < 3 → (demoLevel.rows ≤ i ∨ demoLevel.cols ≤ j) →
        cell2 ((level_resize demoLevel 2 3).get_layer layer) i j = some none) :=
  level_resize_spec demoLevel 2 3 (by intro layer; cases layer <;> exact ⟨rfl, by decide⟩)

/-- Witness for C7: on the 1x2 demo level, cell (2,2) outside the ring
around (0,0) is untouched, and the in-bounds neighbor (0,1) (ring index 3)
holds exactly the value of re-running scoring on its stored tile. -/
theorem set_surrounding_tiles_one_ring_witness :
    cell2 ((set_surrounding_tiles demoLevel2 0 0 TileLayer.Object).get_layer
        TileLayer.Object) 2 2 =
      cell2 (demoLevel2.get_layer TileLayer.Object) 2 2 ∧
    cell2 ((set_surrounding_tiles demoLevel2 0 0 TileLayer.Object).get_layer
        TileLayer.Object)
        ((ringPositions 0 0).getD 3 (0, 0)).1.toNat
        ((ringPositions 0 0).getD 3 (0, 0)).2.toNat =
      resolveCell TileLayer.Object
        (((ringPositions 0 0).take 3).foldl (updateNeighbor TileLayer.Object) demoLevel2)
        ((ringPositions 0 0).getD 3 (0, 0)) :=
  ⟨(set_surrounding_tiles_one_ring demoLevel2 0 0 TileLayer.Object).1.2.2.2.2 2 2
      (by decide),
    (set_surrounding_tiles_one_ring demoLevel2 0 0 TileLayer.Object).2 3 (by decide)
      (by decide)⟩

/-- Witness for C8: placing the rule-less solid tile at (0,0) of the demo
level with auto-tiling on stores the originally chosen pointer. -/
theorem place_tile_fallback_pointer_witness :
    cell2 ((place_tile demoLevel 0 0 editorSel true).get_layer solidTile.layer) 0 0 =
      some (some ⟨"t", 0⟩) :=
  place_tile_fallback_pointer demoLevel 0 0 editorSel "t" 0 solidTile rfl rfl
    (by decide) (by decide) (by decide) (by decide)

/-- Witness for C10: concrete negative coordinates saturate to index 0. -/
theorem negative_coords_saturate_row_zero_witness :
    rowIndex (-1) = 0 ∧ colIndex (-5) = 0 :=
  ⟨negative_coords_saturate_row_zero.1 (-1) (by norm_num),
   negative_coords_saturate_row_zero.2.1 (-5) (by norm_num)⟩
